import Mathlib

/-!
Shallow embedding of the `todo-playground` CLI (TypeScript, Effect) and
verification of its specification claims.

Conventions of the embedding:
* JS numbers at the call sites under study are integer counts; they are
  modelled as `Nat`/`Int` with exact arithmetic (JS double rounding is not
  represented; every quantity involved stays far below 2^53).
* `Math.round` is round-half-up (`⌊x + 1/2⌋`), which on an exact nonnegative
  rational `a / b` equals the natural-number division `(2a + b) / (2b)`.
* `String.prototype.repeat` throws a `RangeError` on a negative count; this
  is modelled as `none`.
* String lengths are counted in characters; all titles involved in the
  claims are ASCII, where JS UTF-16 length and Lean character count agree.
-/

/-- JS `Math.round (a / b)` for natural `a` and positive natural `b`,
computed exactly: round-half-up `⌊a / b + 1/2⌋ = (2a + b) / (2b)`. -/
def jsRound (a b : Nat) : Nat := (2 * a + b) / (2 * b)

/-- JS `c.repeat(n)` where the count `n` may be negative: a negative count
throws a `RangeError` (modelled as `none`), otherwise the character is
repeated `n` times. -/
def jsRepeat (c : Char) (n : Int) : Option String :=
  if n < 0 then none else some (String.mk (List.replicate n.toNat c))

/-- Source: `ProgressBarService.createSyncProgressMessage`, line
`const percentage = Math.round((completed / total) * 100)`. -/
def percentage (completed total : Nat) : Nat := jsRound (completed * 100) total

/-- Source: `const barWidth = 30`. -/
def barWidth : Nat := 30

/-- Source: `const filledWidth = Math.round((completed / total) * barWidth)`. -/
def filledWidth (completed total : Nat) : Nat := jsRound (completed * barWidth) total

/-- Source: `const emptyWidth = barWidth - filledWidth`; in JS this number can
be negative, so it is an `Int`. -/
def emptyWidth (completed total : Nat) : Int :=
  (barWidth : Int) - (filledWidth completed total : Int)

/-- Source: `ProgressBarService.createSyncProgressMessage` (lines 76–88):
builds `⏳ Progress: [<filled><empty>] completed/total (percentage%)`.
`none` models the `RangeError` thrown by `repeat` on a negative count. -/
def createSyncProgressMessage (completed total : Nat) : Option String := do
  let filledBar ← jsRepeat '█' (filledWidth completed total)
  let emptyBar ← jsRepeat ' ' (emptyWidth completed total)
  some ("⏳ Progress: [" ++ filledBar ++ emptyBar ++ "] " ++ toString completed ++
    "/" ++ toString total ++ " (" ++ toString (percentage completed total) ++ "%)")

theorem filledWidth_le (c t : Nat) (hct : c ≤ t) (ht : 0 < t) :
    filledWidth c t ≤ 30 := by
  have h : 2 * (c * barWidth) + t < 31 * (2 * t) := by
    rw [barWidth]
    omega
  have := (Nat.div_lt_iff_lt_mul (by omega : 0 < 2 * t)).mpr h
  unfold filledWidth jsRound
  omega

theorem message_shape (c t : Nat) (hct : c ≤ t) (ht : 0 < t) :
    createSyncProgressMessage c t =
      some ("⏳ Progress: [" ++ String.mk (List.replicate (filledWidth c t) '█') ++
        String.mk (List.replicate (30 - filledWidth c t) ' ') ++ "] " ++
        toString c ++ "/" ++ toString t ++ " (" ++ toString (percentage c t) ++ "%)") := by
  have hle : filledWidth c t ≤ 30 := filledWidth_le c t hct ht
  have h1 : ¬((filledWidth c t : ℤ) < 0) := by omega
  have h2 : ¬(emptyWidth c t < 0) := by
    unfold emptyWidth barWidth
    omega
  have h3 : (emptyWidth c t).toNat = 30 - filledWidth c t := by
    unfold emptyWidth barWidth
    omega
  simp [createSyncProgressMessage, jsRepeat, h1, h2, h3]

/-- C9 counterexample: the claim's justification "for completed > total the
empty width is negative" fails at `(completed, total) = (121, 120)`: there
`121 > 120` yet the rounded filled width is `30`, the empty width is `0`
(not negative) and the message builder still succeeds. -/
theorem claim_C9_counterexample :
    121 > 120 ∧ ¬(emptyWidth 121 120 < 0) ∧ (createSyncProgressMessage 121 120).isSome := by
  decide

/-- C9 (amended): for every `total > 0` and `0 ≤ completed ≤ total`, both
string-repeat counts are non-negative, they sum to 30 (the bar between the
brackets is exactly 30 cells), and the message builder succeeds; the
precondition `completed ≤ total` is necessary because the repeat-error
branch is reachable for some `completed > total` — at `(2, 1)` the empty
width is negative and the builder fails — though not for every
`completed > total`. -/
theorem claim_C9_progress_safety :
    (∀ c t : Nat, 0 < t → c ≤ t →
      0 ≤ (filledWidth c t : ℤ) ∧ 0 ≤ emptyWidth c t ∧
      (filledWidth c t : ℤ) + emptyWidth c t = 30 ∧
      (createSyncProgressMessage c t).isSome) ∧
    (2 > 1 ∧ emptyWidth 2 1 < 0 ∧ createSyncProgressMessage 2 1 = none) := by
  constructor
  · intro c t ht hct
    have hle : filledWidth c t ≤ 30 := filledWidth_le c t hct ht
    refine ⟨by omega, ?_, ?_, ?_⟩
    · unfold emptyWidth barWidth
      omega
    · unfold emptyWidth barWidth
      omega
    · rw [message_shape c t hct ht]
      rfl
  · exact ⟨by omega, by decide, by decide⟩

/-- Witness for C9 (amended): the universally quantified part applied at
`(3, 10)`, together with the closed necessity part. -/
theorem claim_C9_progress_safety_witness :
    (0 ≤ (filledWidth 3 10 : ℤ) ∧ 0 ≤ emptyWidth 3 10 ∧
      (filledWidth 3 10 : ℤ) + emptyWidth 3 10 = 30 ∧
      (createSyncProgressMessage 3 10).isSome) ∧
    (2 > 1 ∧ emptyWidth 2 1 < 0 ∧ createSyncProgressMessage 2 1 = none) :=
  ⟨claim_C9_progress_safety.1 3 10 (by decide) (by decide), claim_C9_progress_safety.2⟩

/-- Source: `domain/Todo.ts`, `CompletedField` transform `decode`:
`(completed) => completed ? "completed" : "pending"`. -/
def completedDecode (completed : Bool) : String :=
  if completed then "completed" else "pending"

/-- Source: `domain/Todo.ts`, `CompletedField` transform `encode`:
`(status) => status === "completed"`. -/
def completedEncode (status : String) : Bool :=
  status == "completed"

/-- C10: the completed-field transform is a bijection between the boolean
API representation and the stored string representation: encoding after
decoding is the identity on booleans, and decoding after encoding is the
identity on the two literal statuses `"completed"` and `"pending"`. -/
theorem claim_C10_completed_bijection :
    (∀ b : Bool, completedEncode (completedDecode b) = b) ∧
    (∀ s : String, s = "completed" ∨ s = "pending" →
      completedDecode (completedEncode s) = s) := by
  constructor
  · intro b
    cases b <;> decide
  · intro s hs
    rcases hs with rfl | rfl <;> decide

/-- Witness for C10: both round trips evaluated at the concrete statuses. -/
theorem claim_C10_completed_bijection_witness :
    completedDecode (completedEncode "completed") = "completed" ∧
    completedDecode (completedEncode "pending") = "pending" :=
  ⟨claim_C10_completed_bijection.2 "completed" (Or.inl rfl),
   claim_C10_completed_bijection.2 "pending" (Or.inr rfl)⟩

/-- JS truthiness of a string: every non-empty string is truthy. Needed
because `DatabaseService.saveTodo` evaluates `todo.completed ? … : …` where
`todo.completed` is the decoded status string, not a boolean. -/
def jsTruthyString (s : String) : Bool := !(s == "")

/-- JS `Number.isSafeInteger` on an integral value: `|n| ≤ 2^53 - 1`.
(`Schema.Int` uses this check; non-integral numbers, which it also rejects,
do not arise at the integer-typed call sites modelled here.) -/
def isSafeInteger (n : Int) : Bool := n.natAbs ≤ 2 ^ 53 - 1

/-- The decoded `Todo` domain value (source: `domain/Todo.ts`, class `Todo`).
On the decoded side of the schema the `completed` field is the status
string `"completed" | "pending"` (the `CompletedField` transform decodes the
boolean wire representation into `CompletionStatus`). -/
structure Todo where
  userId : Int
  id : Int
  title : String
  completed : String
deriving DecidableEq, Repr

/-- The raw record submitted to `Schema.decodeUnknown(Todo)`: integral ids,
a title string and the boolean wire form of `completed`. -/
structure RawTodo where
  userId : Int
  id : Int
  title : String
  completed : Bool
deriving DecidableEq, Repr

/-- Source: `domain/Todo.ts` — `Schema.decodeUnknown(Todo)`: `UserId` and
`TodoId` are `Schema.Int` (safe integer, no positivity refinement), the
title is `Schema.NonEmptyString.pipe(Schema.maxLength(255))`, and
`completed` goes through the `CompletedField` transform. -/
def decodeTodo (r : RawTodo) : Except String Todo :=
  if !isSafeInteger r.userId then .error "Expected an integer, actual userId"
  else if !isSafeInteger r.id then .error "Expected an integer, actual id"
  else if r.title.length < 1 then .error "Expected a non empty string, actual title"
  else if 255 < r.title.length then .error "Expected a string at most 255 characters long"
  else .ok ⟨r.userId, r.id, r.title, completedDecode r.completed⟩

/-- One persisted row of the `todos` table (source: `initializeDatabase`
schema): `completed` is stored as the status string, timestamps are an
abstract clock value (`CURRENT_TIMESTAMP` at the moment of the write). -/
structure TodoRow where
  user_id : Int
  title : String
  completed : String
  created_at : Nat
  updated_at : Nat
deriving DecidableEq, Repr

/-- The todos table: rows as an association list in insertion order (`id`
is the primary key), plus the largest id handed out so far, standing for
SQLite's `AUTOINCREMENT` sequence. -/
structure DB where
  rows : List (Int × TodoRow)
  seq : Int
deriving DecidableEq, Repr

/-- Rebuilds the decode input from a stored row, as `getTodoById` does:
`completed: row.completed === "completed"`. -/
def rowToRaw (id : Int) (row : TodoRow) : RawTodo :=
  { userId := row.user_id, id := id, title := row.title,
    completed := row.completed == "completed" }

/-- Errors of the database layer (source: `domain/DatabaseErrors.ts`). -/
inductive DbError where
  | databaseError (message : String)
  | todoNotFound (id : Int)
deriving DecidableEq, Repr

/-- `SELECT … FROM todos WHERE id = ${id}` on the row list: the first row
whose primary key matches (ids are unique in the real table). -/
def selectById (rows : List (Int × TodoRow)) (id : Int) : Option TodoRow :=
  match rows with
  | [] => none
  | r :: rest => if r.1 = id then some r.2 else selectById rest id

/-- Source: `DatabaseService.getTodoById`: `SELECT … WHERE id = ${id}`; no
row gives `TodoNotFound`, a row is re-validated through the `Todo` schema
and a decode failure is wrapped into `DatabaseError`. -/
def getTodoById (db : DB) (id : Int) : Except DbError Todo :=
  match selectById db.rows id with
  | none => .error (.todoNotFound id)
  | some row =>
    match decodeTodo (rowToRaw id row) with
    | .error e => .error (.databaseError ("Schema decode error: " ++ e))
    | .ok t => .ok t

/-- The status string `saveTodo` computes:
`const completedStatus = todo.completed ? "completed" : "pending"`. Since
the decoded `todo.completed` is a status *string*, JS truthiness makes this
`"completed"` for every well-formed todo. -/
def saveCompletedStatus (todo : Todo) : String :=
  if jsTruthyString todo.completed then "completed" else "pending"

/-- The `SET` clause of the `UPDATE` in `saveTodo`: replaces `user_id`,
`title`, `completed` and `updated_at`, keeping `created_at`. -/
def updateRowWith (todo : Todo) (now : Nat) (row : TodoRow) : TodoRow :=
  { row with
    user_id := todo.userId
    title := todo.title
    completed := saveCompletedStatus todo
    updated_at := now }

/-- Source: `DatabaseService.saveTodo` (upsert): if a row with `todo.id`
exists (`SELECT COUNT(*) … > 0`, modelled as `isSome` of the select),
`UPDATE` sets `user_id`, `title`, `completed` and
`updated_at = CURRENT_TIMESTAMP` on every matching row, preserving
`created_at`; otherwise `INSERT` a new row with the supplied id. Afterwards
the row is read back through `getTodoById`. `now` stands for
`CURRENT_TIMESTAMP`. -/
def saveTodo (now : Nat) (db : DB) (todo : Todo) : DB × Except DbError Todo :=
  let db' : DB :=
    if (selectById db.rows todo.id).isSome then
      { db with rows := db.rows.map (fun r =>
          if r.1 = todo.id then (r.1, updateRowWith todo now r.2) else r) }
    else
      { rows := db.rows ++
          [(todo.id, ⟨todo.userId, todo.title, saveCompletedStatus todo, now, now⟩)],
        seq := max db.seq todo.id }
  (db', getTodoById db' todo.id)

/-- The argument record of `DatabaseService.createTodo` (the optional
`completed` resolved to its boolean value, default `false`). -/
structure CreateTodoData where
  userId : Int
  title : String
  completed : Bool
deriving DecidableEq, Repr

/-- Source: `DatabaseService.createTodo`: with **no** prior validation it
runs `INSERT INTO todos (user_id, title, completed) VALUES …` (the new id
coming from `AUTOINCREMENT`), then reads the row back through
`getTodoById`; any failure of the whole chain is wrapped into a
`DatabaseError`. -/
def createTodo (now : Nat) (db : DB) (data : CreateTodoData) : DB × Except DbError Todo :=
  let completedStatus := if data.completed then "completed" else "pending"
  let newId := db.seq + 1
  let db' : DB :=
    { rows := db.rows ++ [(newId, ⟨data.userId, data.title, completedStatus, now, now⟩)],
      seq := newId }
  (db', match getTodoById db' newId with
    | .error (.databaseError m) => .error (.databaseError ("Failed to create todo: " ++ m))
    | .error (.todoNotFound _) => .error (.databaseError "Failed to create todo: not found")
    | .ok t => .ok t)

/-- C6: evaluation of `createTodo` at the failing input
`{userId: 1, title: ""}` on an empty store: contrary to the claim (and to
the method's own documentation, which says the input is validated against
the Todo schema before the insert), the invalid row **is** persisted — the
title check only happens on the read-back after the `INSERT` — and the
surfaced failure is a wrapped `DatabaseError`, not a pre-insert validation
error. A second conjunct shows `{userId: -1, title: "ok"}` is accepted
outright (no positivity validation at all). -/
theorem claim_C6_create_inserts_invalid :
    ((createTodo 0 ⟨[], 0⟩ ⟨1, "", false⟩).1.rows =
        [(1, ⟨1, "", "pending", 0, 0⟩)] ∧
      (createTodo 0 ⟨[], 0⟩ ⟨1, "", false⟩).2 =
        .error (.databaseError
          "Failed to create todo: Schema decode error: Expected a non empty string, actual title")) ∧
    (createTodo 0 ⟨[], 0⟩ ⟨-1, "ok", false⟩).2 = .ok ⟨-1, 1, "ok", "pending"⟩ := by
  exact ⟨⟨rfl, rfl⟩, rfl⟩

/-- Observable content of a row: everything except the modification
timestamp `updated_at`. -/
def rowObservable (r : Int × TodoRow) : Int × (Int × String × String × Nat) :=
  (r.1, (r.2.user_id, r.2.title, r.2.completed, r.2.created_at))

/-- Observable state of the store: all rows minus their `updated_at`
column, plus the id sequence. -/
def DB.observable (db : DB) : List (Int × (Int × String × String × Nat)) × Int :=
  (db.rows.map rowObservable, db.seq)



theorem selectById_map_update (id : Int) (f : TodoRow → TodoRow) :
    ∀ rows : List (Int × TodoRow),
      selectById (rows.map (fun r => if r.1 = id then (r.1, f r.2) else r)) id =
        (selectById rows id).map f := by
  intro rows
  induction rows with
  | nil => rfl
  | cons r rest ih =>
    by_cases hr : r.1 = id
    · simp [selectById, hr]
    · simp [selectById, hr, ih]

theorem selectById_map_update_ne (id k : Int) (f : TodoRow → TodoRow) (hk : k ≠ id) :
    ∀ rows : List (Int × TodoRow),
      selectById (rows.map (fun r => if r.1 = id then (r.1, f r.2) else r)) k =
        selectById rows k := by
  intro rows
  induction rows with
  | nil => rfl
  | cons r rest ih =>
    by_cases hr : r.1 = id
    · have hne : ¬(id = k) := fun h => hk h.symm
      simp [selectById, hr, hne, ih]
    · simp [selectById, hr, ih]

theorem selectById_append_last (rows : List (Int × TodoRow)) (x : Int × TodoRow) (k : Int) :
    selectById (rows ++ [x]) k =
      match selectById rows k with
      | some v => some v
      | none => if x.1 = k then some x.2 else none := by
  induction rows with
  | nil => rfl
  | cons r rest ih =>
    by_cases hr : r.1 = k
    · simp [selectById, hr]
    · simp [selectById, hr, ih]

theorem selectById_eq_none_iff (rows : List (Int × TodoRow)) (k : Int) :
    selectById rows k = none ↔ ∀ r ∈ rows, r.1 ≠ k := by
  induction rows with
  | nil => simp [selectById]
  | cons r rest ih =>
    by_cases hr : r.1 = k
    · simp [selectById, hr]
    · simp [selectById, hr, ih]

theorem saveTodo_leaves_matching_row (now : Nat) (db : DB) (todo : Todo) :
    (selectById (saveTodo now db todo).1.rows todo.id).isSome := by
  by_cases h0 : (selectById db.rows todo.id).isSome
  · simp only [saveTodo, h0, if_true]
    rw [selectById_map_update]
    cases hs : selectById db.rows todo.id with
    | none => rw [hs] at h0; simp at h0
    | some v => simp
  · simp only [saveTodo, h0, Bool.false_eq_true, if_false]
    rw [selectById_append_last]
    cases hs : selectById db.rows todo.id with
    | none => simp
    | some v => rw [hs] at h0; simp at h0

theorem saveTodo_matching_rows_carry_todo (now : Nat) (db : DB) (todo : Todo) :
    ∀ r ∈ (saveTodo now db todo).1.rows, r.1 = todo.id →
      r.2.user_id = todo.userId ∧ r.2.title = todo.title ∧
      r.2.completed = saveCompletedStatus todo := by
  by_cases h0 : (selectById db.rows todo.id).isSome
  · simp only [saveTodo, h0, if_true]
    intro r hr hrid
    rcases List.mem_map.mp hr with ⟨r0, hr0, rfl⟩
    by_cases h : r0.1 = todo.id
    · simp [h, updateRowWith]
    · simp only [h, if_false] at hrid
  · simp only [saveTodo, h0, Bool.false_eq_true, if_false]
    intro r hr hrid
    rcases List.mem_append.mp hr with h | h
    · have hnone : selectById db.rows todo.id = none := by
        cases hs : selectById db.rows todo.id with
        | none => rfl
        | some v => rw [hs] at h0; simp at h0
      exact absurd hrid ((selectById_eq_none_iff _ _).mp hnone r h)
    · simp only [List.mem_singleton] at h
      subst h
      exact ⟨rfl, rfl, rfl⟩

/-- Supporting fact about the upsert as implemented: two saves of the same
todo leave the store in the same observable state (all columns except the
`updated_at` modification timestamp, plus the id sequence) as one save; an
existing row keeps its `created_at` and only the `user_id`, `title` and
`completed` columns are overwritten — but with the status the code actually
computes (`saveCompletedStatus todo`, the truthiness constant, see the
claim C7 theorem), not necessarily the todo's own status; a missing row is
inserted under the supplied id verbatim. -/
theorem saveTodo_idempotent_observable :
    ∀ (todo : Todo) (db : DB) (t1 t2 : Nat),
      DB.observable (saveTodo t2 (saveTodo t1 db todo).1 todo).1 =
        DB.observable (saveTodo t1 db todo).1 ∧
      (∀ row0, selectById db.rows todo.id = some row0 →
        selectById (saveTodo t1 db todo).1.rows todo.id =
          some ⟨todo.userId, todo.title, saveCompletedStatus todo, row0.created_at, t1⟩ ∧
        ∀ k, k ≠ todo.id →
          selectById (saveTodo t1 db todo).1.rows k = selectById db.rows k) ∧
      (selectById db.rows todo.id = none →
        selectById (saveTodo t1 db todo).1.rows todo.id =
          some ⟨todo.userId, todo.title, saveCompletedStatus todo, t1, t1⟩ ∧
        ∀ k, k ≠ todo.id →
          selectById (saveTodo t1 db todo).1.rows k = selectById db.rows k) := by
  intro todo db t1 t2
  refine ⟨?_, ?_, ?_⟩
  · set db1 := (saveTodo t1 db todo).1 with hdb1
    have h1 : (selectById db1.rows todo.id).isSome := by
      rw [hdb1]
      exact saveTodo_leaves_matching_row t1 db todo
    have hinv : ∀ r ∈ db1.rows, r.1 = todo.id →
        r.2.user_id = todo.userId ∧ r.2.title = todo.title ∧
        r.2.completed = saveCompletedStatus todo := by
      rw [hdb1]
      exact saveTodo_matching_rows_carry_todo t1 db todo
    have hpt : ∀ r ∈ db1.rows,
        (rowObservable ∘ fun r => if r.1 = todo.id then (r.1, updateRowWith todo t2 r.2) else r) r =
          rowObservable r := by
      intro r hr
      by_cases h : r.1 = todo.id
      · obtain ⟨e1, e2, e3⟩ := hinv r hr h
        simp [h, rowObservable, updateRowWith, e1, e2, e3]
      · simp [h, rowObservable]
    simp only [saveTodo, h1, if_true]
    simp [DB.observable, List.map_map, List.map_congr_left hpt]
  · intro row0 hrow0
    have h0 : (selectById db.rows todo.id).isSome := by
      rw [hrow0]
      rfl
    constructor
    · simp only [saveTodo, h0, if_true]
      rw [selectById_map_update, hrow0]
      rfl
    · intro k hk
      simp only [saveTodo, h0, if_true]
      exact selectById_map_update_ne todo.id k _ hk db.rows
  · intro hnone
    have h0 : ¬((selectById db.rows todo.id).isSome = true) := by
      rw [hnone]
      simp
    constructor
    · simp only [saveTodo, h0, Bool.false_eq_true, if_false]
      rw [selectById_append_last, hnone]
      simp
    · intro k hk
      simp only [saveTodo, h0, Bool.false_eq_true, if_false]
      rw [selectById_append_last]
      cases hs : selectById db.rows k with
      | none =>
        have : ¬(todo.id = k) := fun h => hk h.symm
        simp [this]
      | some v => simp

/-- C7: evaluation of `saveTodo` at the failing input — the pending todo
`{userId: 2, id: 2, title: "x", completed: "pending"}`. Because the decoded
`completed` field is the status *string* and both `"completed"` and
`"pending"` are truthy in JS, `todo.completed ? "completed" : "pending"`
stores `"completed"` for every well-formed todo: the insert branch persists
this pending todo as completed, and the update branch flips an existing
pending row to completed even though the upserted todo is identical to it —
contradicting "replaces its mutable fields (userId, title, completed)"
with the todo's values. (The two-calls-equal-one idempotence part of the
claim does hold: `saveTodo_idempotent_observable`.) -/
theorem claim_C7_saveTodo_completed_bug :
    (saveTodo 5 ⟨[], 0⟩ ⟨2, 2, "x", "pending"⟩).1.rows =
      [(2, ⟨2, "x", "completed", 5, 5⟩)] ∧
    (saveTodo 7 ⟨[(2, ⟨2, "x", "pending", 0, 0⟩)], 2⟩ ⟨2, 2, "x", "pending"⟩).1.rows =
      [(2, ⟨2, "x", "completed", 0, 7⟩)] ∧
    ("completed" : String) ≠ "pending" :=
  ⟨rfl, rfl, by decide⟩

/-- C8 counterexample: the domain schema accepts a record whose `userId`
(-1) and `id` (-7) are not positive — `UserId` and `TodoId` are plain
branded `Schema.Int`s with no positivity refinement — refuting "its id and
userId are positive integers". -/
theorem claim_C8_counterexample :
    decodeTodo ⟨-1, -7, "a", false⟩ = .ok ⟨-1, -7, "a", "pending"⟩ ∧
    ¬((-1 : Int) > 0) ∧ ¬((-7 : Int) > 0) :=
  ⟨rfl, by omega, by omega⟩

set_option maxRecDepth 8192 in
/-- C8 (amended): a record is accepted by the domain validation schema iff
its title length is in [1,255] and its `userId` and `id` are (safe)
integers — exactly 255 characters accepted, 256 rejected, empty rejected;
positivity of `id`/`userId` is NOT enforced by the schema. -/
theorem claim_C8_schema_invariant :
    (∀ r : RawTodo, (∃ t, decodeTodo r = .ok t) ↔
      (isSafeInteger r.userId = true ∧ isSafeInteger r.id = true ∧
       1 ≤ r.title.length ∧ r.title.length ≤ 255)) ∧
    decodeTodo ⟨1, 1, String.mk (List.replicate 255 'a'), false⟩ =
      .ok ⟨1, 1, String.mk (List.replicate 255 'a'), "pending"⟩ ∧
    decodeTodo ⟨1, 1, String.mk (List.replicate 256 'a'), false⟩ =
      .error "Expected a string at most 255 characters long" ∧
    decodeTodo ⟨1, 1, "", false⟩ =
      .error "Expected a non empty string, actual title" := by
  refine ⟨?_, rfl, rfl, rfl⟩
  intro r
  unfold decodeTodo
  split_ifs with h1 h2 h3 h4
  all_goals simp_all
  all_goals omega

/-!
Concurrency model for the progress counter (claim C2).

In `syncTodoCommand` each fiber runs, per item, `completed++` immediately
followed by the synchronous construction of the call
`progressBar.updateProgress(completed, total)`: the argument value is read
in the same synchronous JS step as the increment. Effect fibers interleave
only at `yield*` suspension points and JavaScript is single-threaded, so
the increment together with the capture of the reported value is one
atomic step per completing item. A completion trace is the list of fiber
identifiers in the order in which their completion steps run; any
interleaving of the fibers' other (fetch/persist) steps only determines
this order and nothing else about the counter.
-/

/-- One completion step (source: `syncTodos.ts` lines 156–158):
`completed++` then capture of the new value, attributed to fiber `i`. -/
def completionStep (acc : Nat × List (Nat × Nat)) (i : Nat) : Nat × List (Nat × Nat) :=
  (acc.1 + 1, acc.2 ++ [(i, acc.1 + 1)])

/-- Runs all completion steps of a trace, starting from `completed = 0` and
no progress reports, returning the final counter and the list of
`(fiber, reported count)` attributions in emission order. -/
def runCompletions (order : List Nat) : Nat × List (Nat × Nat) :=
  order.foldl completionStep (0, [])

theorem runCompletions_foldl (order : List Nat) :
    ∀ (c : Nat) (rs : List (Nat × Nat)),
      order.foldl completionStep (c, rs) =
        (c + order.length, rs ++ order.zip (List.range' (c + 1) order.length)) := by
  induction order with
  | nil => simp
  | cons i rest ih =>
    intro c rs
    simp only [List.foldl_cons, completionStep, List.length_cons, List.range'_succ,
      List.zip_cons_cons, ih]
    simp only [List.append_assoc, List.singleton_append, Prod.mk.injEq]
    exact ⟨by omega, trivial⟩

/-- C2: under every interleaving of concurrent completions — i.e. for every
completion order of the successfully completed items — the shared counter
ends at exactly one increment per completed item, the sequence of reported
counts is exactly `1, 2, …, n` (no update lost, no value double-counted),
each completing fiber is attributed exactly one count, and no two
attributions carry the same count. -/
theorem claim_C2_counter_atomic :
    ∀ order : List Nat,
      (runCompletions order).1 = order.length ∧
      (runCompletions order).2.map Prod.fst = order ∧
      (runCompletions order).2.map Prod.snd = List.range' 1 order.length ∧
      ((runCompletions order).2.map Prod.snd).Nodup := by
  intro order
  have h := runCompletions_foldl order 0 []
  rw [runCompletions] at *
  rw [h]
  have hlen : order.length = (List.range' 1 order.length).length := by simp
  refine ⟨by omega, ?_, ?_, ?_⟩
  · simpa using List.map_fst_zip order (List.range' 1 order.length) (le_of_eq hlen)
  · simpa using List.map_snd_zip order (List.range' 1 order.length) (ge_of_eq hlen)
  · have := List.map_snd_zip order (List.range' 1 order.length) (ge_of_eq hlen)
    simpa [this] using List.nodup_range' (s := 1) (n := order.length)

/-- Errors of the per-item sync pipeline: a fetch failure
(`GetTodoByIdError`, carrying id + message) or a database failure. -/
inductive SyncError where
  | fetchError (id : Int) (message : String)
  | dbError (e : DbError)
deriving DecidableEq, Repr

/-- State threaded through one `sync` command run: the database, the shared
`completed` counter and the sequence of counts passed to
`updateProgress`. -/
structure SyncState where
  db : DB
  completed : Nat
  reports : List Nat
deriving DecidableEq, Repr

/-- Well-formedness of a decoded todo — exactly the conditions under which
the schema re-validation on the store's read-back succeeds. Every todo the
fetcher hands to `saveTodo` was itself produced by schema decoding, so it
satisfies this. -/
def Todo.wf (t : Todo) : Prop :=
  isSafeInteger t.userId = true ∧ isSafeInteger t.id = true ∧
    1 ≤ t.title.length ∧ t.title.length ≤ 255

instance (t : Todo) : Decidable t.wf := by
  unfold Todo.wf
  infer_instance

theorem decodeTodo_ok_of_row (id : Int) (row : TodoRow)
    (hid : isSafeInteger id = true) (hu : isSafeInteger row.user_id = true)
    (hl1 : 1 ≤ row.title.length) (hl2 : row.title.length ≤ 255) :
    decodeTodo (rowToRaw id row) =
      .ok ⟨row.user_id, id, row.title, completedDecode (row.completed == "completed")⟩ := by
  have h3 : ¬(row.title.length < 1) := by omega
  have h4 : ¬(255 < row.title.length) := by omega
  unfold decodeTodo rowToRaw
  simp [hid, hu, h3, h4]

theorem saveTodo_ok (now : Nat) (db : DB) (todo : Todo) (h : todo.wf) :
    (saveTodo now db todo).2 =
      .ok ⟨todo.userId, todo.id, todo.title,
        completedDecode (saveCompletedStatus todo == "completed")⟩ := by
  obtain ⟨hu, hi, hl1, hl2⟩ := h
  by_cases h0 : (selectById db.rows todo.id).isSome
  · cases hs : selectById db.rows todo.id with
    | none => rw [hs] at h0; simp at h0
    | some row0 =>
      simp only [saveTodo, h0, if_true, getTodoById]
      rw [selectById_map_update, hs, Option.map_some']
      have hd := decodeTodo_ok_of_row todo.id
        ⟨todo.userId, todo.title, saveCompletedStatus todo, row0.created_at, now⟩ hi hu hl1 hl2
      simp [updateRowWith, hd]
  · simp only [saveTodo, h0, Bool.false_eq_true, if_false, getTodoById]
    rw [selectById_append_last]
    cases hs : selectById db.rows todo.id with
    | some v => rw [hs] at h0; simp at h0
    | none =>
      have hd := decodeTodo_ok_of_row todo.id
        ⟨todo.userId, todo.title, saveCompletedStatus todo, now, now⟩ hi hu hl1 hl2
      simp [hs, hd]

/-- Source: `syncTodo` (`syncTodos.ts` lines 152–159): fetch the todo from
the API, save it to the database, then `completed++` and report the new
count. A fetch failure aborts before any state change; a save failure
aborts after the database write it already performed, before the
increment. -/
def syncTodoStep (fetch : Int → Except SyncError Todo) (now : Nat)
    (st : SyncState) (id : Int) : SyncState × Except SyncError Unit :=
  match fetch id with
  | .error e => (st, .error e)
  | .ok todo =>
    match saveTodo now st.db todo with
    | (db', .error e) => ({ st with db := db' }, .error (.dbError e))
    | (db', .ok _) =>
      ({ db := db'
         completed := st.completed + 1
         reports := st.reports ++ [st.completed + 1] },
       .ok ())

/-- Source: `Effect.forEach(ids, syncTodo, { concurrency })` under the
sequential policy (`concurrency = 1`, the command's default). Without a
`mode: "either"` accumulation option, `Effect.forEach` is fail-fast: the
first item error fails the whole batch and the remaining ids are never
processed. No per-id failure list is produced — the result is a single
`Except`. -/
def syncTodosSeq (fetch : Int → Except SyncError Todo) (now : Nat)
    (ids : List Int) (st : SyncState) : SyncState × Except SyncError Unit :=
  match ids with
  | [] => (st, .ok ())
  | id :: rest =>
    match syncTodoStep fetch now st id with
    | (st', .error e) => (st', .error e)
    | (st', .ok _) => syncTodosSeq fetch now rest st'

/-- A fetch oracle where id 1 fails and every other id yields a valid todo
(spec §8's end-to-end scenario: ids `[1, 2]` where fetching id 1 fails). -/
def fetchFailsOn1 (id : Int) : Except SyncError Todo :=
  if id = 1 then .error (.fetchError 1 "Failed to fetch todo 1")
  else .ok ⟨2, id, "delectus aut autem", "pending"⟩

/-- C1 counterexample: syncing ids `[1, 2]` where fetching id 1 fails —
under the embedded fail-fast semantics the whole batch fails with that
fetch error, id 2 is never persisted (the store is unchanged), the counter
stays 0 and no success is reported, contradicting "processing of every
other id continues undisturbed … the outcome still reports the successes
of the non-failing ids" (and no per-id failure record exists: the outcome
carries a single error). -/
theorem claim_C1_counterexample :
    (syncTodosSeq fetchFailsOn1 0 [1, 2] ⟨⟨[], 0⟩, 0, []⟩).2 =
      .error (.fetchError 1 "Failed to fetch todo 1") ∧
    (syncTodosSeq fetchFailsOn1 0 [1, 2] ⟨⟨[], 0⟩, 0, []⟩).1.db.rows = [] ∧
    (syncTodosSeq fetchFailsOn1 0 [1, 2] ⟨⟨[], 0⟩, 0, []⟩).1.completed = 0 ∧
    (syncTodosSeq fetchFailsOn1 0 [1, 2] ⟨⟨[], 0⟩, 0, []⟩).1.reports = [] :=
  ⟨rfl, rfl, rfl, rfl⟩

/-- C1 (amended): batch sync is fail-fast, not failure-isolating. Under the
sequential (default) policy, if every id before some failing id fetches a
well-formed todo and fetching `bad` fails with `e`, then the whole run
returns that single error, the final state is exactly the state after
processing only the prefix (ids after the failure are never fetched or
persisted; the prefix's successes remain persisted and counted), and no
per-id failure record or success report of the remaining ids exists. -/
theorem claim_C1_failfast :
    ∀ (fetch : Int → Except SyncError Todo) (now : Nat) (st : SyncState)
      (pre : List Int) (bad : Int) (post : List Int) (e : SyncError),
      (∀ i ∈ pre, ∃ t, fetch i = .ok t ∧ t.wf) →
      fetch bad = .error e →
      syncTodosSeq fetch now (pre ++ bad :: post) st =
        ((syncTodosSeq fetch now pre st).1, .error e) ∧
      (syncTodosSeq fetch now pre st).2 = .ok () := by
  intro fetch now st pre bad post e hpre hbad
  induction pre generalizing st with
  | nil =>
    refine ⟨?_, rfl⟩
    simp only [List.nil_append, syncTodosSeq, syncTodoStep, hbad]
  | cons i rest ih =>
    obtain ⟨t, hft, hwf⟩ := hpre i (by simp)
    have hsave := saveTodo_ok now st.db t hwf
    obtain ⟨db', r, hsv⟩ : ∃ db' r, saveTodo now st.db t = (db', r) := ⟨_, _, rfl⟩
    rw [hsv] at hsave
    simp only at hsave
    subst hsave
    have hstep : syncTodoStep fetch now st i =
        ({ db := db'
           completed := st.completed + 1
           reports := st.reports ++ [st.completed + 1] }, .ok ()) := by
      simp only [syncTodoStep, hft, hsv]
    have ihr := ih ⟨db', st.completed + 1, st.reports ++ [st.completed + 1]⟩
      (fun j hj => hpre j (by simp [hj]))
    refine ⟨?_, ?_⟩
    · calc syncTodosSeq fetch now ((i :: rest) ++ bad :: post) st
          = syncTodosSeq fetch now (rest ++ bad :: post)
              ⟨db', st.completed + 1, st.reports ++ [st.completed + 1]⟩ := by
            simp only [List.cons_append, syncTodosSeq, hstep]
            rfl
        _ = ((syncTodosSeq fetch now rest
              ⟨db', st.completed + 1, st.reports ++ [st.completed + 1]⟩).1, .error e) := ihr.1
        _ = ((syncTodosSeq fetch now (i :: rest) st).1, .error e) := by
            simp only [syncTodosSeq, hstep]
    · simp only [syncTodosSeq, hstep]
      exact ihr.2

/-- Witness for C1 (amended): the fail-fast theorem applied to the concrete
run `sync [2, 1]` where id 1 fails and id 2 is a valid todo. -/
theorem claim_C1_failfast_witness :
    syncTodosSeq fetchFailsOn1 0 [2, 1] ⟨⟨[], 0⟩, 0, []⟩ =
      ((syncTodosSeq fetchFailsOn1 0 [2] ⟨⟨[], 0⟩, 0, []⟩).1,
        .error (.fetchError 1 "Failed to fetch todo 1")) ∧
    (syncTodosSeq fetchFailsOn1 0 [2] ⟨⟨[], 0⟩, 0, []⟩).2 = .ok () :=
  claim_C1_failfast fetchFailsOn1 0 ⟨⟨[], 0⟩, 0, []⟩ [2] 1 []
    (.fetchError 1 "Failed to fetch todo 1")
    (fun i hi => by
      simp only [List.mem_singleton] at hi
      subst hi
      exact ⟨⟨2, 2, "delectus aut autem", "pending"⟩, rfl, by decide⟩)
    rfl

/-- Numeric value of a string of decimal digit characters (most significant
first). -/
def digitsVal (cs : List Char) : Nat :=
  cs.foldl (fun a c => 10 * a + (c.toNat - 48)) 0

/-- The decimal digit characters of `n`, most significant first — the
mathematical specification of core's `Nat.repr`. -/
def decDigits (n : Nat) : List Char :=
  if h : n / 10 = 0 then [Nat.digitChar (n % 10)]
  else decDigits (n / 10) ++ [Nat.digitChar (n % 10)]
decreasing_by
  exact Nat.div_lt_self (by omega) (by omega)

theorem toDigitsCore_eq (n : Nat) : ∀ (fuel : Nat) (acc : List Char), n < fuel →
    Nat.toDigitsCore 10 fuel n acc = decDigits n ++ acc := by
  induction n using Nat.strong_induction_on with
  | _ n ih =>
    intro fuel acc hfuel
    match fuel with
    | 0 => omega
    | fuel + 1 =>
      rw [Nat.toDigitsCore]
      by_cases h : n / 10 = 0
      · rw [decDigits]
        simp [h]
      · rw [decDigits]
        simp only [h, if_false, dite_false, dif_neg]
        rw [ih (n / 10) (Nat.div_lt_self (by omega) (by omega)) fuel
          (Nat.digitChar (n % 10) :: acc) (by omega)]
        simp

theorem digitChar_spec (d : Nat) (h : d < 10) :
    (Nat.digitChar d).isDigit = true ∧ (Nat.digitChar d).toNat - 48 = d ∧
    (Nat.digitChar d).isWhitespace = false := by
  interval_cases d <;> exact ⟨rfl, rfl, rfl⟩

theorem decDigits_spec (n : Nat) :
    digitsVal (decDigits n) = n ∧ (decDigits n).all Char.isDigit = true ∧
    decDigits n ≠ [] := by
  induction n using Nat.strong_induction_on with
  | _ n ih =>
    by_cases h : n / 10 = 0
    · rw [decDigits]
      simp only [h, dite_true, dif_pos]
      obtain ⟨h1, h2, _⟩ := digitChar_spec (n % 10) (Nat.mod_lt n (by omega))
      refine ⟨?_, ?_, by simp⟩
      · simp [digitsVal, h2]
        omega
      · simp [h1]
    · rw [decDigits]
      simp only [h, dite_false, dif_neg]
      obtain ⟨ih1, ih2, ih3⟩ := ih (n / 10) (Nat.div_lt_self (by omega) (by omega))
      obtain ⟨h1, h2, _⟩ := digitChar_spec (n % 10) (Nat.mod_lt n (by omega))
      refine ⟨?_, ?_, by simp⟩
      · simp [digitsVal, List.foldl_append] at ih1 ⊢
        rw [ih1, h2]
        omega
      · simp [List.all_append, ih2, h1]

/-- A JS number produced by `Number(string)`: `NaN`, ±Infinity, or a finite
decimal value represented exactly as `mantissa / 10 ^ exp` (unreduced;
IEEE-754 double rounding is not modelled — every literal appearing in the
claims is exactly representable). -/
inductive JsNum where
  | nan
  | inf
  | neginf
  | fin (mantissa : Int) (exp : Nat)
deriving DecidableEq, Repr

/-- Parses an unsigned JS decimal literal `digits [. digits]` (either side
of the dot may be empty, but not both); returns `(mantissa, exp)` with
value `mantissa / 10 ^ exp`. Hex/binary/octal and exponent literals are not
modelled (no claim involves them). -/
def parseUnsignedLit (cs : List Char) : Option (Nat × Nat) :=
  let ip := cs.takeWhile (fun c => c ≠ '.')
  let rest := cs.dropWhile (fun c => c ≠ '.')
  match rest with
  | [] =>
    if ip ≠ [] ∧ ip.all Char.isDigit then some (digitsVal ip, 0) else none
  | _ :: fp =>
    if fp.all (fun c => c ≠ '.') ∧ (ip ≠ [] ∨ fp ≠ []) ∧
        ip.all Char.isDigit ∧ fp.all Char.isDigit then
      some (digitsVal ip * 10 ^ fp.length + digitsVal fp, fp.length)
    else none

/-- JS `Number(s)` on a non-special string: optional sign followed by an
unsigned decimal literal; anything else gives `NaN`. -/
def jsNumberOfChars (cs : List Char) : JsNum :=
  match cs with
  | [] => .nan
  | c :: rest =>
    if c = '-' then
      match parseUnsignedLit rest with
      | some (m, e) => .fin (-(m : Int)) e
      | none => .nan
    else if c = '+' then
      match parseUnsignedLit rest with
      | some (m, e) => .fin (m : Int) e
      | none => .nan
    else
      match parseUnsignedLit (c :: rest) with
      | some (m, e) => .fin (m : Int) e
      | none => .nan

/-- Source: the `effect` library's `NumberFromString` decode (its
`Number.parse`): the literals `"NaN"`, `"Infinity"`, `"-Infinity"` are
special-cased, empty or whitespace-only strings are rejected (the
library's `s.trim() === ""` test, stated here as all-whitespace), and any
other string goes through `Number(s)` with `NaN` results rejected.
Surrounding whitespace on otherwise numeric strings is not modelled. -/
def numberFromString (s : String) : Option JsNum :=
  if s = "NaN" then some .nan
  else if s = "Infinity" then some .inf
  else if s = "-Infinity" then some .neginf
  else if s.data.all Char.isWhitespace then none
  else
    match jsNumberOfChars s.data with
    | .nan => none
    | v => some v

theorem parseUnsignedLit_digits (cs : List Char) (h1 : cs ≠ [])
    (h2 : cs.all Char.isDigit = true) :
    parseUnsignedLit cs = some (digitsVal cs, 0) := by
  have hnd : ∀ c ∈ cs, (fun c => decide (c ≠ '.')) c = true := by
    intro c hc
    have : c.isDigit = true := by
      rw [List.all_eq_true] at h2
      exact h2 c hc
    simp only [decide_eq_true_eq]
    intro heq
    subst heq
    simp [Char.isDigit] at this
  have ht : cs.takeWhile (fun c => decide (c ≠ '.')) = cs :=
    List.takeWhile_eq_self_iff.mpr hnd
  have hd : cs.dropWhile (fun c => decide (c ≠ '.')) = [] :=
    List.dropWhile_eq_nil_iff.mpr hnd
  unfold parseUnsignedLit
  simp only [ht, hd]
  simp [h1, h2]

theorem nat_repr_data (n : Nat) : (Nat.repr n).data = decDigits n := by
  show (List.asString (Nat.toDigitsCore 10 (n + 1) n [])).data = decDigits n
  rw [toDigitsCore_eq n (n + 1) [] (by omega)]
  simp [List.asString]

theorem repr_ne_nondigit (n : Nat) (t : String) (c : Char) (hct : c ∈ t.data)
    (hcd : c.isDigit = false) : Nat.repr n ≠ t := by
  obtain ⟨_, hdig, _⟩ := decDigits_spec n
  have hdata := nat_repr_data n
  intro heq
  rw [heq] at hdata
  rw [List.all_eq_true] at hdig
  rw [hdata] at hct
  have := hdig c hct
  rw [this] at hcd
  exact absurd hcd (by simp)

theorem numberFromString_repr (n : Nat) :
    numberFromString (Nat.repr n) = some (.fin (n : Int) 0) := by
  obtain ⟨hval, hdig, hne⟩ := decDigits_spec n
  have hdata := nat_repr_data n
  unfold numberFromString
  rw [if_neg (repr_ne_nondigit n "NaN" 'N' (by decide) (by decide))]
  rw [if_neg (repr_ne_nondigit n "Infinity" 'I' (by decide) (by decide))]
  rw [if_neg (repr_ne_nondigit n "-Infinity" '-' (by decide) (by decide))]
  rw [hdata]
  have hws : (decDigits n).all Char.isWhitespace = false := by
    cases hcs : decDigits n with
    | nil => exact absurd hcs hne
    | cons c rest =>
      rw [List.all_eq_true] at hdig
      have hcdig : c.isDigit = true := by
        rw [hcs] at hdig
        exact hdig c (by simp)
      have hnw : c.isWhitespace = false := by
        simp only [Char.isDigit, Bool.and_eq_true, decide_eq_true_eq] at hcdig
        obtain ⟨hge, hle⟩ := hcdig
        have e1 : c ≠ ' ' := by
          intro hh
          subst hh
          revert hge
          decide
        have e2 : c ≠ '\t' := by
          intro hh
          subst hh
          revert hge
          decide
        have e3 : c ≠ '\x0d' := by
          intro hh
          subst hh
          revert hge
          decide
        have e4 : c ≠ '\n' := by
          intro hh
          subst hh
          revert hge
          decide
        simp [Char.isWhitespace, e1, e2, e3, e4]
      simp [List.all_cons, hnw]
  rw [if_neg (by simp [hws])]
  cases hcs : decDigits n with
  | nil => exact absurd hcs hne
  | cons c rest =>
    rw [List.all_eq_true] at hdig
    have hcdig : c.isDigit = true := by
      rw [hcs] at hdig
      exact hdig c (by simp)
    have hcm : c ≠ '-' := by
      intro hh
      subst hh
      simp [Char.isDigit] at hcdig
    have hcp : c ≠ '+' := by
      intro hh
      subst hh
      simp [Char.isDigit] at hcdig
    simp only [jsNumberOfChars, hcm, hcp, if_false]
    rw [parseUnsignedLit_digits (c :: rest) (by simp)
      (by rw [← hcs]; exact List.all_eq_true.mpr hdig)]
    rw [← hcs, hval]

/-- A JavaScript value as it reaches `Schema.decodeUnknownSync`: the schema
under test only distinguishes strings from every other shape; non-string
numbers are carried as exact decimals like `JsNum`. -/
inductive JsValue where
  | str (s : String)
  | num (m : Int) (e : Nat)
  | boolean (b : Bool)
  | null
  | undef
  | obj
  | arr
deriving DecidableEq

/-- The decoded type of `ConcurrencySchema`: the literal `"unbounded"` or a
number (`Sequential`/`Bounded` degree in the spec's vocabulary). -/
inductive Concurrency where
  | unbounded
  | degree (n : Int)
deriving DecidableEq, Repr

/-- Source: `ConcurrencySchema = Schema.Union(Schema.Literal("unbounded"),
Schema.compose(Schema.NumberFromString, Schema.Int.pipe(Schema.positive())))`
on an unknown input: a non-string fails both union members; the literal
member matches exactly `"unbounded"`; any other string goes through
`NumberFromString` and the result is filtered by `Schema.Int`
(`Number.isSafeInteger`: an integral value within `2^53 - 1`) and
`positive` (`> 0`). The value of `JsNum.fin m e` is `m / 10 ^ e`, so the
integer test is `10 ^ e ∣ m`. -/
def decodeConcurrency (v : JsValue) : Except String Concurrency :=
  match v with
  | .str s =>
    if s = "unbounded" then .ok .unbounded
    else
      match numberFromString s with
      | none => .error "Unable to decode into a number"
      | some (.fin m e) =>
        if ((10 : Int) ^ e ∣ m) ∧ isSafeInteger (m / 10 ^ e) = true ∧ 0 < m then
          .ok (.degree (m / 10 ^ e))
        else .error "Expected a positive safe integer"
      | some _ => .error "Expected an integer"
  | _ => .error "Expected a string"

/-- C4: for every positive `n ≤ 10000`, decoding the decimal string of `n`
yields `n`; decoding the literal `"unbounded"` yields the unbounded policy;
and `"0"`, `"-1"`, `"1.5"`, `""`, any non-numeric string (one `Number(s)`
cannot parse) and any non-string input are rejected. -/
theorem claim_C4_concurrency_schema :
    (∀ n : Nat, 1 ≤ n → n ≤ 10000 →
      decodeConcurrency (.str (Nat.repr n)) = .ok (.degree n)) ∧
    decodeConcurrency (.str "unbounded") = .ok .unbounded ∧
    (decodeConcurrency (.str "0")).isOk = false ∧
    (decodeConcurrency (.str "-1")).isOk = false ∧
    (decodeConcurrency (.str "1.5")).isOk = false ∧
    (decodeConcurrency (.str "")).isOk = false ∧
    (∀ s : String, s ≠ "unbounded" → numberFromString s = none →
      (decodeConcurrency (.str s)).isOk = false) ∧
    (∀ v : JsValue, (∀ s, v ≠ .str s) → (decodeConcurrency v).isOk = false) := by
  refine ⟨?_, rfl, by decide, by decide, by decide, by decide, ?_, ?_⟩
  · intro n h1 h2
    have hu : Nat.repr n ≠ "unbounded" :=
      repr_ne_nondigit n "unbounded" 'u' (by decide) (by decide)
    simp only [decodeConcurrency, hu, if_false]
    rw [numberFromString_repr n]
    have hdvd : (10 : Int) ^ (0 : Nat) ∣ (n : Int) := by simp
    have hdiv : (n : Int) / 10 ^ (0 : Nat) = (n : Int) := by simp
    have hsafe : isSafeInteger ((n : Int) / 10 ^ (0 : Nat)) = true := by
      rw [hdiv]
      simp only [isSafeInteger, Int.natAbs_ofNat, decide_eq_true_eq]
      have : (10000 : Nat) ≤ 2 ^ 53 - 1 := by norm_num
      omega
    have hpos : (0 : Int) < (n : Int) := by exact_mod_cast h1
    simp only
    rw [if_pos ⟨hdvd, hsafe, hpos⟩, hdiv]
  · intro s hs hnone
    simp [decodeConcurrency, hs, hnone, Except.isOk, Except.toBool]
  · intro v hv
    cases v with
    | str s => exact absurd rfl (hv s)
    | num m e => simp [decodeConcurrency, Except.isOk, Except.toBool]
    | boolean b => simp [decodeConcurrency, Except.isOk, Except.toBool]
    | null => simp [decodeConcurrency, Except.isOk, Except.toBool]
    | undef => simp [decodeConcurrency, Except.isOk, Except.toBool]
    | obj => simp [decodeConcurrency, Except.isOk, Except.toBool]
    | arr => simp [decodeConcurrency, Except.isOk, Except.toBool]

/-- Witness for C4: the positive-integer round trip applied at `n = 7`, the
non-numeric rejection applied at `"abc"`, and the non-string rejection
applied at `null`. -/
theorem claim_C4_concurrency_schema_witness :
    decodeConcurrency (.str (Nat.repr 7)) = .ok (.degree 7) ∧
    (decodeConcurrency (.str "abc")).isOk = false ∧
    (decodeConcurrency .null).isOk = false :=
  ⟨claim_C4_concurrency_schema.1 7 (by decide) (by decide),
   claim_C4_concurrency_schema.2.2.2.2.2.2.1 "abc" (by decide) (by decide),
   claim_C4_concurrency_schema.2.2.2.2.2.2.2 .null (fun s h => JsValue.noConfusion h)⟩

/-- Result of one HTTP attempt, as `HttpClient.retryTransient` classifies
it: success (2xx), a transient failure (network error or 5xx response), or
a non-transient failure (e.g. 4xx, malformed payload). -/
inductive AttemptResult where
  | ok
  | transient
  | fatal
deriving DecidableEq, Repr

/-- Outcome surfaced by the retrying client: success, a non-transient
failure, or a transient failure surfaced after the schedule gave up. -/
inductive RetryOutcome where
  | success
  | fatalError
  | transientError
deriving DecidableEq, Repr

/-- Source: `Schedule.exponential("100 millis", 2)` — the wait before the
`(k+1)`-th re-attempt (after `k` failures) is `100 * 2^k` ms, with no
per-wait cap. -/
def backoffDelay (k : Nat) : Nat := 100 * 2 ^ k

/-- Total elapsed time (ms) after `k` completed waits, with attempt
execution time idealised to zero: closed form `100 * (2^k - 1)` of the sum
of the first `k` exponential delays (`elapsedAfter_eq_sum`). -/
def elapsedAfter (k : Nat) : Nat := 100 * (2 ^ k - 1)

theorem elapsedAfter_eq_sum (k : Nat) :
    elapsedAfter k = ((List.range k).map backoffDelay).sum := by
  induction k with
  | zero => rfl
  | succ k ih =>
    rw [List.range_succ, List.map_append, List.sum_append, ← ih]
    simp only [elapsedAfter, backoffDelay, List.map_cons, List.map_nil, List.sum_cons,
      List.sum_nil]
    have h2 : 2 ^ (k + 1) = 2 * 2 ^ k := by
      rw [pow_succ]
      ring
    have h1 : 1 ≤ 2 ^ k := Nat.one_le_two_pow
    omega

/-- Source: `TodoService.httpClient` —
`HttpClient.retryTransient({ schedule: Schedule.exponential("100 millis",
2).pipe(Schedule.upTo("5 seconds")) })`. On a transient failure the
schedule is consulted: `Schedule.upTo` lets it continue only while the
**total elapsed time** is under 5 seconds — it is not a cap on a single
wait — otherwise the transient error is surfaced. Success and non-transient
failures stop immediately. `results k` is the outcome of attempt `k`; the
returned list is the sequence of waits actually performed. -/
def runRetryFrom (results : Nat → AttemptResult) (k : Nat) :
    RetryOutcome × List Nat :=
  match results k with
  | .ok => (.success, [])
  | .fatal => (.fatalError, [])
  | .transient =>
    if h : elapsedAfter k < 5000 then
      ((runRetryFrom results (k + 1)).1, backoffDelay k :: (runRetryFrom results (k + 1)).2)
    else (.transientError, [])
termination_by 6 - k
decreasing_by
  simp only [elapsedAfter] at h
  have h6 : k < 6 := by
    by_contra hk
    have hp : (2 : Nat) ^ 6 ≤ 2 ^ k := Nat.pow_le_pow_right (by omega) (by omega)
    norm_num at hp
    omega
  omega

/-- The retrying fetch of one todo, starting at attempt 0. -/
def runRetry (results : Nat → AttemptResult) : RetryOutcome × List Nat :=
  runRetryFrom results 0

theorem elapsedAfter_lt (k : Nat) (h : k ≤ 5) : elapsedAfter k < 5000 := by
  have hp : (2 : Nat) ^ k ≤ 2 ^ 5 := Nat.pow_le_pow_right (by omega) h
  simp only [elapsedAfter]
  norm_num at hp
  omega

theorem elapsedAfter_ge (k : Nat) (h : 6 ≤ k) : ¬(elapsedAfter k < 5000) := by
  have hp : (2 : Nat) ^ 6 ≤ 2 ^ k := Nat.pow_le_pow_right (by omega) h
  simp only [elapsedAfter]
  norm_num at hp
  omega

theorem runRetryFrom_spec (results : Nat → AttemptResult) :
    ∀ (j k : Nat), k ≤ 6 → 6 - k ≤ j →
      (runRetryFrom results k).2.length + k ≤ 6 ∧
      (∀ i (hi : i < (runRetryFrom results k).2.length),
        (runRetryFrom results k).2.get ⟨i, hi⟩ = backoffDelay (k + i)) ∧
      (∀ i < (runRetryFrom results k).2.length, results (k + i) = .transient) ∧
      (((runRetryFrom results k).1 = .success ∧
          results (k + (runRetryFrom results k).2.length) = .ok) ∨
       ((runRetryFrom results k).1 = .fatalError ∧
          results (k + (runRetryFrom results k).2.length) = .fatal) ∨
       ((runRetryFrom results k).1 = .transientError ∧
          k + (runRetryFrom results k).2.length = 6 ∧ results 6 = .transient)) := by
  intro j
  induction j with
  | zero =>
    intro k hk6 hj
    have hk : k = 6 := by omega
    subst hk
    rw [runRetryFrom]
    cases hr : results 6 with
    | ok => exact ⟨by simp, by simp, by simp, Or.inl ⟨rfl, by simpa using hr⟩⟩
    | fatal => exact ⟨by simp, by simp, by simp, Or.inr (Or.inl ⟨rfl, by simpa using hr⟩)⟩
    | transient =>
      rw [dif_neg (elapsedAfter_ge 6 (by omega))]
      exact ⟨by simp, by simp, by simp, Or.inr (Or.inr ⟨rfl, by simp, rfl⟩)⟩
  | succ j ih =>
    intro k hk6 hj
    rw [runRetryFrom]
    cases hr : results k with
    | ok => exact ⟨by simp; omega, by simp, by simp, Or.inl ⟨rfl, by simpa using hr⟩⟩
    | fatal =>
      exact ⟨by simp; omega, by simp, by simp, Or.inr (Or.inl ⟨rfl, by simpa using hr⟩)⟩
    | transient =>
      by_cases he : elapsedAfter k < 5000
      · rw [dif_pos he]
        have hk5 : k ≤ 5 := by
          by_contra hk
          exact elapsedAfter_ge k (by omega) he
        obtain ⟨ih1, ih2, ih3, ih4⟩ := ih (k + 1) (by omega) (by omega)
        refine ⟨by simp only [List.length_cons]; omega, ?_, ?_, ?_⟩
        · intro i hi
          match i with
          | 0 => simp
          | i + 1 =>
            simp only [List.length_cons] at hi
            have := ih2 i (by omega)
            simp only [List.get_cons_succ]
            rw [this]
            congr 1
            omega
        · intro i hi
          match i with
          | 0 => simpa using hr
          | i + 1 =>
            simp only [List.length_cons] at hi
            have := ih3 i (by omega)
            rw [show k + (i + 1) = k + 1 + i by omega]
            exact this
        · rcases ih4 with ⟨ho, hres⟩ | ⟨ho, hres⟩ | ⟨ho, hlen, hres⟩
          · exact Or.inl ⟨by simpa using ho, by
              simp only [List.length_cons]
              rw [show k + ((runRetryFrom results (k+1)).2.length + 1) =
                k + 1 + (runRetryFrom results (k+1)).2.length by omega]
              exact hres⟩
          · exact Or.inr (Or.inl ⟨by simpa using ho, by
              simp only [List.length_cons]
              rw [show k + ((runRetryFrom results (k+1)).2.length + 1) =
                k + 1 + (runRetryFrom results (k+1)).2.length by omega]
              exact hres⟩)
          · exact Or.inr (Or.inr ⟨by simpa using ho, by
              simp only [List.length_cons]
              omega, hres⟩)
      · rw [dif_neg he]
        have hk : k = 6 := by
          by_contra hk
          exact he (elapsedAfter_lt k (by omega))
        subst hk
        exact ⟨by simp, by simp, by simp, Or.inr (Or.inr ⟨rfl, by simp, hr⟩)⟩

/-- The worst case for the claim: every attempt fails transiently. -/
def alwaysTransient : Nat → AttemptResult := fun _ => .transient

/-- C5 counterexample: with every attempt failing transiently, the client
performs exactly the six waits `100, 200, 400, 800, 1600, 3200` ms and then
surfaces the transient error. This refutes the claim twice over: the k-th
delay is never clamped to `min(5000, 100·2^k)` (the claimed 7-th wait of
5000 ms never happens — no wait of 5000 ms occurs at all), and the client
stops on the 5-second *total elapsed* budget, not "only on success or on
the first non-transient failure". -/
theorem claim_C5_counterexample :
    runRetry alwaysTransient = (.transientError, [100, 200, 400, 800, 1600, 3200]) ∧
    (runRetry alwaysTransient).1 ≠ .success ∧
    (runRetry alwaysTransient).1 ≠ .fatalError ∧
    5000 ∉ (runRetry alwaysTransient).2 := by
  have e6 : runRetryFrom alwaysTransient 6 = (.transientError, []) := by
    rw [runRetryFrom]
    simp only [alwaysTransient]
    rw [dif_neg (elapsedAfter_ge 6 (by omega))]
  have e5 : runRetryFrom alwaysTransient 5 = (.transientError, [3200]) := by
    rw [runRetryFrom]
    simp only [alwaysTransient]
    rw [dif_pos (elapsedAfter_lt 5 (by omega)), e6]
    rfl
  have e4 : runRetryFrom alwaysTransient 4 = (.transientError, [1600, 3200]) := by
    rw [runRetryFrom]
    simp only [alwaysTransient]
    rw [dif_pos (elapsedAfter_lt 4 (by omega)), e5]
    rfl
  have e3 : runRetryFrom alwaysTransient 3 = (.transientError, [800, 1600, 3200]) := by
    rw [runRetryFrom]
    simp only [alwaysTransient]
    rw [dif_pos (elapsedAfter_lt 3 (by omega)), e4]
    rfl
  have e2 : runRetryFrom alwaysTransient 2 = (.transientError, [400, 800, 1600, 3200]) := by
    rw [runRetryFrom]
    simp only [alwaysTransient]
    rw [dif_pos (elapsedAfter_lt 2 (by omega)), e3]
    rfl
  have e1 : runRetryFrom alwaysTransient 1 = (.transientError, [200, 400, 800, 1600, 3200]) := by
    rw [runRetryFrom]
    simp only [alwaysTransient]
    rw [dif_pos (elapsedAfter_lt 1 (by omega)), e2]
    rfl
  have e0 : runRetry alwaysTransient = (.transientError, [100, 200, 400, 800, 1600, 3200]) := by
    rw [runRetry, runRetryFrom]
    simp only [alwaysTransient]
    rw [dif_pos (elapsedAfter_lt 0 (by omega)), e1]
    rfl
  refine ⟨e0, ?_, ?_, ?_⟩
  · rw [e0]
    decide
  · rw [e0]
    decide
  · rw [e0]
    decide

/-- C5 (amended): the retrying fetch waits `100·2^k` ms before the
`(k+1)`-th re-attempt with **no per-wait cap**; it re-attempts only while
the total elapsed time is under 5 seconds, so it performs at most 6 waits
(the largest being 3200 ms); it stops on success, on the first
non-transient failure, or — for persistent transient failures — when the
5-second total budget is exhausted, surfacing the transient error after
exactly 6 waits. -/
theorem claim_C5_backoff_schedule : ∀ results : Nat → AttemptResult,
    (runRetry results).2.length ≤ 6 ∧
    (∀ i (hi : i < (runRetry results).2.length),
      (runRetry results).2.get ⟨i, hi⟩ = 100 * 2 ^ i) ∧
    (∀ i < (runRetry results).2.length, results i = .transient) ∧
    (((runRetry results).1 = .success ∧ results (runRetry results).2.length = .ok) ∨
     ((runRetry results).1 = .fatalError ∧ results (runRetry results).2.length = .fatal) ∨
     ((runRetry results).1 = .transientError ∧ (runRetry results).2.length = 6 ∧
        results 6 = .transient)) := by
  intro results
  obtain ⟨h1, h2, h3, h4⟩ := runRetryFrom_spec results 6 0 (by omega) (by omega)
  refine ⟨by simpa [runRetry] using h1, ?_, ?_, ?_⟩
  · intro i hi
    have := h2 i hi
    simpa [runRetry, backoffDelay] using this
  · intro i hi
    have := h3 i hi
    simpa [runRetry] using this
  · simpa [runRetry] using h4

/-- Witness for C5 (amended): the theorem applied to the all-transient
oracle; the success/fatal disjuncts are refuted pointwise, forcing the
budget-exhaustion outcome with exactly 6 waits. -/
theorem claim_C5_backoff_schedule_witness :
    (runRetry alwaysTransient).2.length ≤ 6 ∧
    (runRetry alwaysTransient).1 = .transientError ∧
    (runRetry alwaysTransient).2.length = 6 := by
  obtain ⟨h1, h2, h3, h4⟩ := claim_C5_backoff_schedule alwaysTransient
  rcases h4 with ⟨_, habs⟩ | ⟨_, habs⟩ | ⟨ho, hlen, _⟩
  · exact absurd habs (by simp [alwaysTransient])
  · exact absurd habs (by simp [alwaysTransient])
  · exact ⟨h1, ho, hlen⟩
